import Mathlib

/-!
Verification of `src/tools/video-analyzer.py` (YouTube video analyzer for
Pine Script development) against its natural-language specification.

The file shallowly embeds the pure logic of the analyzer: URL parsing
(`extract_video_id`), transcript-text cleaning, keyword extraction
(`extract_key_concepts`), strategy-component bucketing
(`identify_strategy_components`), specification generation
(`generate_pine_script_spec`, `calculate_complexity`, `assess_feasibility`),
the transcript-acquisition chain with its on-disk cache (`get_transcript`),
the `analyze` pipeline and the CLI exit behaviour (`mainExitCode`).
Stateful and effectful parts (network, file system) are modelled by explicit
oracle parameters: the list of available caption tracks, the speech-to-text
result, the cached entry for the video identifier under consideration.
Texts are modelled as `List Char` (`String.data`); Python string predicates
(`\w`, `\s`, `.lower()`) are modelled at ASCII granularity, which is the
granularity at which the keyword lists and URL patterns of the program operate.
-/

/- ======================================================================
   Basic character/string helpers
   ====================================================================== -/

/-- A character matched by the regex class `[\w-]` used by every video-id
pattern (ASCII model of Python `\w`, plus the hyphen). -/
def isIdChar (c : Char) : Bool :=
  c.isAlphanum || c = '_' || c = '-'

/-- Python whitespace (`\s` and `str.strip`), ASCII model:
space, tab, newline, carriage return, vertical tab, form feed. -/
def isPySpace (c : Char) : Bool :=
  c = ' ' || c = '\t' || c = '\n' || c = '\r' || c = Char.ofNat 11 || c = Char.ofNat 12

/-- `p` is a prefix of `s` (Boolean, structural). -/
def isPre : List Char → List Char → Bool
  | [], _ => true
  | _ :: _, [] => false
  | a :: as, b :: bs => a = b && isPre as bs

/-- The Python substring test `p in s`. -/
def containsSub (p : List Char) : List Char → Bool
  | [] => isPre p []
  | c :: t => isPre p (c :: t) || containsSub p t

/-- Helper for `countOccs`: `skip` characters are still to be consumed by a
match already counted. -/
def countOccsAux (p : List Char) : Nat → List Char → Nat
  | _ + 1, [] => 0
  | 0, [] => 0
  | k + 1, _ :: t => countOccsAux p k t
  | 0, c :: t =>
    if isPre p (c :: t) then countOccsAux p (p.length - 1) t + 1
    else countOccsAux p 0 t

/-- Python `s.count(p)`: number of non-overlapping occurrences of `p` in
`s`, scanning left to right (faithful for the nonempty patterns the
analyzer counts; the Python count for the empty pattern differs). -/
def countOccs (p s : List Char) : Nat := countOccsAux p 0 s

/-- Python `s.lower()` applied to a string, as a character list
(ASCII model via `Char.toLower`). -/
def lowerData (s : String) : List Char := s.data.map Char.toLower

/- ======================================================================
   URL parsing: `VideoAnalyzer.extract_video_id` (source lines 135-149)
   ====================================================================== -/

/-- `re.search` of one video-id pattern `(?:PRE)([\w-]+)`: scan the string
left to right; at the first position where the literal prefix `p` matches
and is followed by at least one `[\w-]` character, capture the maximal run
of `[\w-]` characters after the prefix. -/
def searchCapture (p : List Char) : List Char → Option (List Char)
  | [] => none
  | c :: t =>
    if isPre p (c :: t) then
      let run := ((c :: t).drop p.length).takeWhile isIdChar
      if run.isEmpty then searchCapture p t else some run
    else searchCapture p t

/-- The five literal prefixes of the URL patterns tried by
`extract_video_id`, in source order. -/
def shapeList : List (List Char) :=
  ["youtube.com/watch?v=".data, "youtu.be/".data, "youtube.com/embed/".data,
   "youtube.com/v/".data, "youtube.com/shorts/".data]

/-- Try each pattern in order, returning the first capture. -/
def firstCapture : List (List Char) → List Char → Option (List Char)
  | [], _ => none
  | p :: ps, s =>
    match searchCapture p s with
    | some v => some v
    | none => firstCapture ps s

/-- `VideoAnalyzer.extract_video_id`: try the five URL patterns in order;
return the captured group of the first matching pattern, or `None`. -/
def extract_video_id (url : String) : Option String :=
  match firstCapture shapeList url.data with
  | some v => some ⟨v⟩
  | none => none

/-- The pattern with literal prefix `p` has a qualifying occurrence in `s`
at offset `a`: some nonempty run of `[\w-]` characters follows `p` there. -/
def QualAt (p s a : List Char) : Prop :=
  ∃ v b, s = a ++ p ++ v ++ b ∧ v ≠ [] ∧ ∀ c ∈ v, isIdChar c = true

/- ======================================================================
   Transcript-text cleaning (source lines 246-249)
   ====================================================================== -/

/-- One pass of `re.sub` removing bracketed tags: while `pending = some buf`,
`buf` holds (reversed) the characters consumed since the first unclosed
`[`; a `]` closes and drops the whole bracketed span, while a newline
aborts the candidate match (the regex `.` does not cross newlines) and
flushes the consumed characters as literals. -/
def remBrAux (pending : Option (List Char)) : List Char → List Char
  | [] => match pending with
    | none => []
    | some buf => buf.reverse
  | c :: t =>
    match pending with
    | none => if c = '[' then remBrAux (some [c]) t else c :: remBrAux none t
    | some buf =>
      if c = ']' then remBrAux none t
      else if c = '\n' then buf.reverse ++ '\n' :: remBrAux none t
      else remBrAux (some (c :: buf)) t

/-- Removal of bracketed tags such as `[Music]` (the first clean-up `re.sub`). -/
def removeBrackets (s : List Char) : List Char := remBrAux none s

/-- Like `remBrAux`, for the music-lyric markers removed by the second `re.sub`:
the same character opens and closes a span. -/
def remMusicAux (pending : Option (List Char)) : List Char → List Char
  | [] => match pending with
    | none => []
    | some buf => buf.reverse
  | c :: t =>
    match pending with
    | none => if c = '♪' then remMusicAux (some [c]) t else c :: remMusicAux none t
    | some buf =>
      if c = '♪' then remMusicAux none t
      else if c = '\n' then buf.reverse ++ '\n' :: remMusicAux none t
      else remMusicAux (some (c :: buf)) t

/-- Removal of music-lyric spans between two music-note markers. -/
def removeMusic (s : List Char) : List Char := remMusicAux none s

/-- The whitespace-collapsing `re.sub`: collapse each maximal whitespace run to one
space. `prevSpace` records whether the previous character belonged to a
run already collapsed. -/
def collapseWsAux (prevSpace : Bool) : List Char → List Char
  | [] => []
  | c :: t =>
    if isPySpace c then
      if prevSpace then collapseWsAux true t else ' ' :: collapseWsAux true t
    else c :: collapseWsAux false t

/-- Python `s.strip()`: drop leading and trailing whitespace. -/
def stripChars (s : List Char) : List Char :=
  ((s.dropWhile isPySpace).reverse.dropWhile isPySpace).reverse

/-- The caption clean-up of `get_transcript_from_youtube` (lines 246-249):
remove `[...]` tags, remove `♪...♪` spans, collapse whitespace, strip. -/
def cleanTranscript (s : String) : String :=
  ⟨stripChars (collapseWsAux false (removeMusic (removeBrackets s.data)))⟩

/- ======================================================================
   TRADING_KEYWORDS (source lines 81-113) and
   `VideoAnalyzer.extract_key_concepts` (source lines 357-404)
   ====================================================================== -/

/-- The five fixed concept categories of `TRADING_KEYWORDS`. -/
inductive Category
  | indicators
  | patterns
  | strategies
  | conditions
  | timeframes
deriving DecidableEq

/-- The static keyword list of each category, verbatim from the source. -/
def TRADING_KEYWORDS : Category → List String
  | .indicators =>
    ["rsi", "relative strength", "macd", "moving average", "ema", "sma", "wma",
     "bollinger bands", "bollinger", "stochastic", "volume", "atr", "average true range",
     "adx", "ichimoku", "fibonacci", "fib", "pivot points", "support", "resistance",
     "vwap", "momentum", "cci", "commodity channel", "williams", "obv", "on balance",
     "keltner", "donchian", "parabolic sar", "supertrend", "heikin ashi"]
  | .patterns =>
    ["breakout", "trend", "reversal", "divergence", "convergence", "bullish divergence",
     "bearish divergence", "hidden divergence", "cross", "crossover", "crossunder",
     "golden cross", "death cross", "squeeze", "flag", "pennant", "triangle",
     "head and shoulders", "double top", "double bottom", "cup and handle",
     "wedge", "channel", "range", "consolidation", "pullback", "retracement"]
  | .strategies =>
    ["scalping", "day trading", "swing trading", "position trading",
     "mean reversion", "trend following", "momentum trading", "breakout trading",
     "range trading", "grid trading", "martingale", "dca", "dollar cost averaging",
     "smart money", "order block", "fair value gap", "fvg", "liquidity"]
  | .conditions =>
    ["entry", "exit", "stop loss", "take profit", "risk management",
     "position sizing", "trailing stop", "break even", "signal", "alert",
     "confirmation", "filter", "trigger", "buy signal", "sell signal",
     "long", "short", "close position", "partial profit"]
  | .timeframes =>
    ["1 minute", "5 minute", "15 minute", "30 minute", "1 hour", "4 hour",
     "daily", "weekly", "monthly", "multi timeframe", "mtf", "higher timeframe",
     "lower timeframe", "htf", "ltf", "m1", "m5", "m15", "m30", "h1", "h4", "d1"]

/-- The first loop of `extract_key_concepts` for one category: each keyword
contained in the lowercased text is recorded with its occurrence count, in
keyword-list order. -/
def kwFound (kws : List String) (textLower : List Char) : List (List Char × Nat) :=
  kws.filterMap fun k =>
    if containsSub k.data textLower then some (k.data, countOccs k.data textLower)
    else none

/-- Stable insertion (descending by count) used by `sortDesc`: an element
goes before the first element with a strictly smaller count, so elements
with equal counts keep their original relative order — the order produced
by the stable Python sort with key descending count. -/
def insDesc (p : List Char × Nat) : List (List Char × Nat) → List (List Char × Nat)
  | [] => [p]
  | q :: t => if q.2 ≤ p.2 then p :: q :: t else q :: insDesc p t

/-- Stable sort, descending by occurrence count. -/
def sortDesc : List (List Char × Nat) → List (List Char × Nat)
  | [] => []
  | p :: t => insDesc p (sortDesc t)

/-- The dedup loop of `extract_key_concepts`: walk the sorted list keeping
the first occurrence of each term, dropping the counts. -/
def dedupTerms (seen : List (List Char)) : List (List Char × Nat) → List (List Char)
  | [] => []
  | p :: rest =>
    if p.1 ∈ seen then dedupTerms seen rest
    else p.1 :: dedupTerms (p.1 :: seen) rest

/-- The final list of one category in `extract_key_concepts`: found keywords
sorted by descending count, deduplicated, truncated to the top 10. -/
def categoryResult (kws : List String) (textLower : List Char) : List (List Char) :=
  (dedupTerms [] (sortDesc (kwFound kws textLower))).take 10

/-- The category lists of a `found_concepts` mapping. The free-form numeric
extractions (`specific_values`, lines 384-402) are referenced by no claim
and are not modelled. -/
structure ConceptFindings where
  indicators : List (List Char)
  patterns : List (List Char)
  strategies : List (List Char)
  conditions : List (List Char)
  timeframes : List (List Char)

/-- `VideoAnalyzer.extract_key_concepts`: per-category matched keywords,
ranked by occurrence count in the lowercased transcript. -/
def extract_key_concepts (text : String) : ConceptFindings :=
  let tl := lowerData text
  { indicators := categoryResult (TRADING_KEYWORDS .indicators) tl
    patterns := categoryResult (TRADING_KEYWORDS .patterns) tl
    strategies := categoryResult (TRADING_KEYWORDS .strategies) tl
    conditions := categoryResult (TRADING_KEYWORDS .conditions) tl
    timeframes := categoryResult (TRADING_KEYWORDS .timeframes) tl }

/-- Project the list of one category out of a `ConceptFindings`. -/
def conceptList (f : ConceptFindings) : Category → List (List Char)
  | .indicators => f.indicators
  | .patterns => f.patterns
  | .strategies => f.strategies
  | .conditions => f.conditions
  | .timeframes => f.timeframes

/- ======================================================================
   `VideoAnalyzer.identify_strategy_components` (source lines 406-455)
   ====================================================================== -/

/-- The sentence split at every one of the three sentence delimiters, keeping
empty fragments, as Python `re.split` does. -/
def splitSentences : List Char → List (List Char)
  | [] => [[]]
  | c :: t =>
    if c = '.' || c = '!' || c = '?' then [] :: splitSentences t
    else
      match splitSentences t with
      | [] => [[c]]
      | h :: r => (c :: h) :: r

/-- `any(word in sentence_lower for word in kws)`. -/
def anyKw (kws : List String) (sl : List Char) : Bool :=
  kws.any fun k => containsSub k.data sl

def entry_keywords : List String :=
  ["enter", "buy", "long", "entry", "go long", "open", "get in"]

def exit_keywords : List String :=
  ["exit", "sell", "close", "take profit", "stop loss", "get out", "short"]

def risk_keywords : List String :=
  ["risk", "position size", "money management", "drawdown", "stop", "loss"]

def rule_keywords : List String :=
  ["always", "never", "must", "important", "rule", "key"]

/-- One bucket of `identify_strategy_components`: the stripped sentences of
length at least 10 whose lowercasing satisfies `keep`, truncated to the
first 5 (the per-sentence append loop followed by `[:5]`). -/
def selectBucket (text : List Char) (keep : List Char → Bool) : List (List Char) :=
  ((((splitSentences text).map stripChars).filter
    fun s => decide (10 ≤ s.length) && keep (s.map Char.toLower)).take 5)

/-- The buckets of raw transcript sentences. -/
structure StrategyComponents where
  entry_conditions : List (List Char)
  exit_conditions : List (List Char)
  risk_management : List (List Char)
  indicators_mentioned : List (List Char)
  timeframes : List (List Char)
  market_conditions : List (List Char)
  key_rules : List (List Char)

/-- `VideoAnalyzer.identify_strategy_components`: bucket the sentences of the
transcript by keyword containment. The loop never appends to
`indicators_mentioned`, `timeframes` or `market_conditions`, so those
buckets are always empty. -/
def identify_strategy_components (text : List Char) : StrategyComponents :=
  { entry_conditions := selectBucket text fun sl =>
      anyKw entry_keywords sl &&
        (containsSub "when".data sl || containsSub "if".data sl || containsSub "once".data sl)
    exit_conditions := selectBucket text fun sl =>
      anyKw exit_keywords sl &&
        (containsSub "when".data sl || containsSub "if".data sl || containsSub "at".data sl)
    risk_management := selectBucket text fun sl => anyKw risk_keywords sl
    indicators_mentioned := []
    timeframes := []
    market_conditions := []
    key_rules := selectBucket text fun sl => anyKw rule_keywords sl }

/- ======================================================================
   Specification generation (source lines 461-548)
   ====================================================================== -/

/-- The feasibility record built by `_assess_feasibility`. -/
structure Feasibility where
  overall : String
  issues : List String
  pine_script_compatible : Bool

/-- Terms flagged as problematic by `_assess_feasibility`. -/
def problematic : List String :=
  ["machine learning", "neural network", "ai", "sentiment", "news"]

/-- An ASCII apostrophe, kept out of string literals. -/
def quoteCh : Char := Char.ofNat 39

/-- The issue message built for a problematic term. -/
def problematicIssue (term : List Char) : String :=
  String.singleton quoteCh ++ (⟨term⟩ : String) ++ String.singleton quoteCh ++
    " may require external data or complex implementation"

/-- `VideoAnalyzer._assess_feasibility` (lines 510-527): collect issues,
derive the overall label and the compatibility flag from them. -/
def assess_feasibility (concepts : ConceptFindings) : Feasibility :=
  let issues :=
    ((concepts.strategies ++ concepts.indicators).filterMap fun term =>
      if problematic.any (fun p => containsSub p.data (term.map Char.toLower)) then
        some (problematicIssue term)
      else none) ++
    (if 5 < concepts.indicators.length then
      ["Many indicators - may need to optimize for performance"]
    else [])
  { overall := if issues = [] then "full" else "partial"
    issues := issues
    pine_script_compatible := issues.length = 0 }

/-- `VideoAnalyzer._calculate_complexity` (lines 499-508). -/
def calculate_complexity (concepts : ConceptFindings) (components : StrategyComponents) : Nat :=
  let score := 1 + min concepts.indicators.length 3 + min concepts.patterns.length 2
    + (if components.entry_conditions.isEmpty then 0 else 1)
    + (if components.exit_conditions.isEmpty then 0 else 1)
    + (if components.risk_management.isEmpty then 0 else 1)
    + (if 1 < concepts.timeframes.length then 1 else 0)
  min score 10

/-- The fields of the generated Pine Script specification that the claims
reference (video metadata echo, strategy style, parameters and suggested
features carry no claim and are not modelled). -/
structure PineSpec where
  script_type : String
  complexity_score : Nat
  main_indicators : List (List Char)
  patterns : List (List Char)
  timeframes : List (List Char)
  entry_logic : List (List Char)
  exit_logic : List (List Char)
  risk_rules : List (List Char)
  key_rules : List (List Char)
  feasibility : Feasibility

/-- `VideoAnalyzer.generate_pine_script_spec` (lines 461-497): the script
type is `strategy` when the components hold any entry or exit condition
(Python truthiness of the two lists), else `indicator`. -/
def generate_pine_script_spec (concepts : ConceptFindings)
    (components : StrategyComponents) : PineSpec :=
  let has_entry_exit :=
    !components.entry_conditions.isEmpty || !components.exit_conditions.isEmpty
  { script_type := if has_entry_exit then "strategy" else "indicator"
    complexity_score := calculate_complexity concepts components
    main_indicators := concepts.indicators.take 5
    patterns := concepts.patterns.take 5
    timeframes := concepts.timeframes.take 3
    entry_logic := components.entry_conditions
    exit_logic := components.exit_conditions
    risk_rules := components.risk_management
    key_rules := components.key_rules
    feasibility := assess_feasibility concepts }

/- ======================================================================
   Transcript acquisition (source lines 189-351)
   ====================================================================== -/

/-- A caption track as listed by the transcript API: its language code,
whether it is auto-generated, and the text its `fetch()` yields (already
joined across segments, before the clean-up regexes). -/
structure Track where
  lang : String
  generated : Bool
  text : String

/-- The language-code test against the three English codes. -/
def isEnglishCode (l : String) : Bool :=
  l == "en" || l == "en-US" || l == "en-GB"

/-- Modelled from the spec: the `find_transcript` call into the external
transcript library (searching the three English codes), which the spec describes as
finding "any English caption variant"; the library is not part of this
repository, so it is modelled as returning the first English track. -/
def findTranscriptSpec (tracks : List Track) : Option Track :=
  tracks.find? fun t => isEnglishCode t.lang

/-- The four transcript-acquisition methods named by the fallback chain of
the spec. -/
inductive AcqMethod
  | manual
  | auto
  | anyEnglish
  | whisperSTT
deriving DecidableEq

/-- `VideoAnalyzer.get_transcript_from_youtube` (lines 189-264) restricted
to its selection logic: prefer the first manual English track, then the
first auto-generated English track, then any English variant; the chosen
text of the chosen track is cleaned. Also returns the caption variants inspected, in
order. The exception paths (`disabled`, `not_found`, `unavailable`) all
yield `(none, tag)` exactly like the `no_captions` path modelled here. -/
def ytCaptions (tracks : List Track) : (Option String × String) × List AcqMethod :=
  match tracks.find? (fun t => isEnglishCode t.lang && !t.generated) with
  | some t => ((some (cleanTranscript t.text), "manual_captions"), [.manual])
  | none =>
    match tracks.find? (fun t => isEnglishCode t.lang && t.generated) with
    | some t => ((some (cleanTranscript t.text), "auto_captions"), [.manual, .auto])
    | none =>
      match findTranscriptSpec tracks with
      | some t => ((some (cleanTranscript t.text), "english_captions"),
                   [.manual, .auto, .anyEnglish])
      | none => ((none, "no_captions"), [.manual, .auto, .anyEnglish])

/-- Python truthiness of an optional transcript string: `None` and the
empty string are falsy. -/
def truthyOpt : Option String → Bool
  | none => false
  | some s => !(s == "")

/-- The JSON object with text and source kept in the cache file of one
video id. -/
structure CacheEntry where
  text : String
  source : String

/-- What one `get_transcript` call produced: the `(transcript, source)`
pair returned to `analyze`, the cache entry for this video id after the
call, the acquisition methods considered, and how many network
transcript-acquisition calls (caption listing/fetch, audio download) the
call made. -/
structure FetchOut where
  result : Option String × String
  cache : Option CacheEntry
  trace : List AcqMethod
  ncalls : Nat

/-- `VideoAnalyzer.get_transcript` (lines 324-351) for one video id:
serve from the cache when an entry exists; otherwise try YouTube captions
(unless `--whisper` forces speech-to-text), falling back to the Whisper
result `whisperRes`; cache whichever result is truthy. -/
def get_transcript (useWhisper : Bool) (tracks : List Track)
    (whisperRes : Option String × String) (cache : Option CacheEntry) : FetchOut :=
  match cache with
  | some c => ⟨(some c.text, c.source ++ "_cached"), some c, [], 0⟩
  | none =>
    if useWhisper then
      if truthyOpt whisperRes.1 then
        ⟨whisperRes, some ⟨whisperRes.1.getD "", whisperRes.2⟩, [.whisperSTT], 1⟩
      else ⟨whisperRes, none, [.whisperSTT], 1⟩
    else
      if truthyOpt (ytCaptions tracks).1.1 then
        ⟨(ytCaptions tracks).1,
          some ⟨(ytCaptions tracks).1.1.getD "", (ytCaptions tracks).1.2⟩,
          (ytCaptions tracks).2, 1⟩
      else
        if truthyOpt whisperRes.1 then
          ⟨whisperRes, some ⟨whisperRes.1.getD "", whisperRes.2⟩,
            (ytCaptions tracks).2 ++ [.whisperSTT], 2⟩
        else ⟨whisperRes, none, (ytCaptions tracks).2 ++ [.whisperSTT], 2⟩

/- ======================================================================
   `VideoAnalyzer.analyze` (lines 656-721) and the CLI (lines 728-764)
   ====================================================================== -/

/-- The metadata fields `analyze` inspects: `get_video_metadata` returns
`title = "Unknown"` together with an `error` entry when the fetch fails. -/
structure Metadata where
  title : String
  error : Option String

/-- The fields of the result dictionary of `analyze` that the claims reference
(summary text, saved-file path and payload previews are presentation). -/
structure AnalyzeResult where
  success : Bool
  error : Option String
  video_id : Option String
  spec : Option PineSpec

/-- `VideoAnalyzer.analyze`: the pipeline over its oracles (metadata fetch
result, caption tracks, Whisper result, cache state). Every failure path
returns a record with `success := false` and a message; no path raises. -/
def analyze (url : String) (meta : Metadata) (useWhisper : Bool)
    (tracks : List Track) (whisperRes : Option String × String)
    (cache : Option CacheEntry) : AnalyzeResult :=
  match extract_video_id url with
  | none => ⟨false, some "Invalid YouTube URL", none, none⟩
  | some vid =>
    if meta.error.isSome && (meta.title == "Unknown") then
      ⟨false, some ("Could not access video: " ++ meta.error.getD ""), some vid, none⟩
    else
      if truthyOpt (get_transcript useWhisper tracks whisperRes cache).result.1 then
        ⟨true, none, some vid,
          some (generate_pine_script_spec
            (extract_key_concepts
              ((get_transcript useWhisper tracks whisperRes cache).result.1.getD ""))
            (identify_strategy_components
              ((get_transcript useWhisper tracks whisperRes cache).result.1.getD "").data))⟩
      else
        ⟨false,
         some ("Could not get transcript ("
           ++ (get_transcript useWhisper tracks whisperRes cache).result.2
           ++ "). Try with --whisper flag."),
         some vid, none⟩

/-- The process exit code of `main` (lines 754-764): with `--json` the
result is printed and the function falls through to a normal exit; without
it, a failed result reaches `sys.exit(1)`. -/
def mainExitCode (jsonFlag : Bool) (res : AnalyzeResult) : Nat :=
  if jsonFlag then 0
  else if res.success then 0
  else 1


/- ======================================================================
   Helper lemmas
   ====================================================================== -/

/-- Every element of a `selectBucket` bucket is a stripped sentence of the
text, has length at least 10, and the bucket holds at most 5 entries. -/
theorem selectBucket_ok (text : List Char) (keep : List Char → Bool) :
    (selectBucket text keep).length ≤ 5 ∧
      ∀ s ∈ selectBucket text keep,
        s ∈ (splitSentences text).map stripChars ∧ 10 ≤ s.length := by
  constructor
  · exact List.length_take_le 5 _
  · intro s hs
    have hf := List.mem_of_mem_take hs
    have hmem := List.mem_of_mem_filter hf
    have hp := List.of_mem_filter hf
    simp only [Bool.and_eq_true, decide_eq_true_eq] at hp
    exact ⟨hmem, hp.1⟩

/- ======================================================================
   C6: complexity score bounds
   ====================================================================== -/

/-- Claim C6: for every concepts dictionary and components dictionary, the
complexity score computed by `_calculate_complexity` is an integer in the
closed interval [1, 10]. -/
theorem complexity_score_in_bounds (concepts : ConceptFindings)
    (components : StrategyComponents) :
    1 ≤ calculate_complexity concepts components ∧
      calculate_complexity concepts components ≤ 10 := by
  simp only [calculate_complexity]
  omega

/- ======================================================================
   C10: feasibility consistency
   ====================================================================== -/

/-- Claim C10: for every concepts input, the feasibility assessment is internally
consistent: `overall = "full"` iff the issues list is empty, and
`pine_script_compatible` iff the issues list is empty. -/
theorem feasibility_consistent (concepts : ConceptFindings) :
    ((assess_feasibility concepts).overall = "full" ↔
      (assess_feasibility concepts).issues = []) ∧
    ((assess_feasibility concepts).pine_script_compatible = true ↔
      (assess_feasibility concepts).issues = []) := by
  have key : ∀ issues : List String,
      ((if issues = [] then "full" else "partial") = "full" ↔ issues = []) ∧
      ((decide (issues.length = 0) = true) ↔ issues = []) := by
    intro issues
    cases issues with
    | nil => simp
    | cons a l => simp
  dsimp only [assess_feasibility]
  exact key _

/- ======================================================================
   C7: script type from entry/exit conditions
   ====================================================================== -/

/-- Claim C7: a transcript whose identified strategy components contain no entry
and no exit conditions yields `script_type = "indicator"`; one whose
components contain both yields `script_type = "strategy"`. -/
theorem script_type_from_components (text : String) (concepts : ConceptFindings) :
    ((identify_strategy_components text.data).entry_conditions = [] ∧
        (identify_strategy_components text.data).exit_conditions = [] →
      (generate_pine_script_spec concepts (identify_strategy_components text.data)).script_type
        = "indicator") ∧
    ((identify_strategy_components text.data).entry_conditions ≠ [] ∧
        (identify_strategy_components text.data).exit_conditions ≠ [] →
      (generate_pine_script_spec concepts (identify_strategy_components text.data)).script_type
        = "strategy") := by
  constructor
  · rintro ⟨h1, h2⟩
    simp [generate_pine_script_spec, h1, h2]
  · rintro ⟨h1, h2⟩
    simp [generate_pine_script_spec, List.isEmpty_iff, h1, h2]

/- ======================================================================
   C1: CLI exit code on failure (corrected)
   ====================================================================== -/

/-- Claim C1 counterexample: with JSON output selected, a failed analysis (here:
an invalid URL) leaves `main` with exit code 0 — the `args.json` branch of
`main` never reaches `sys.exit(1)` — refuting "non-zero exit regardless of
whether JSON or formatted output was selected". -/
theorem json_failure_exits_zero :
    (analyze "https://example.com/video" ⟨"Unknown", none⟩ false [] (none, "nf") none).success
        = false ∧
      mainExitCode true
        (analyze "https://example.com/video" ⟨"Unknown", none⟩ false [] (none, "nf") none)
        = 0 := by
  decide

/-- Claim C1 amended: the process exit code is non-zero exactly when the analysis
failed AND formatted (non-JSON) output was selected; with `--json` the
process exits 0 even on failure. -/
theorem exit_code_characterization (jsonFlag : Bool) (res : AnalyzeResult) :
    (mainExitCode jsonFlag res ≠ 0 ↔ jsonFlag = false ∧ res.success = false) := by
  cases jsonFlag <;> cases res with
  | mk success error video_id spec => cases success <;> simp [mainExitCode]

/- ======================================================================
   C9: bucket invariants of identify_strategy_components
   ====================================================================== -/

/-- Claim C9: every bucket produced by `identify_strategy_components` contains at
most 5 entries, each of which is a stripped sentence of the input text of
length at least 10. -/
theorem strategy_buckets_ok (text : String) (bucket : List (List Char))
    (hb : bucket ∈ [(identify_strategy_components text.data).entry_conditions,
      (identify_strategy_components text.data).exit_conditions,
      (identify_strategy_components text.data).risk_management,
      (identify_strategy_components text.data).indicators_mentioned,
      (identify_strategy_components text.data).timeframes,
      (identify_strategy_components text.data).market_conditions,
      (identify_strategy_components text.data).key_rules]) :
    bucket.length ≤ 5 ∧
      ∀ s ∈ bucket,
        s ∈ (splitSentences text.data).map stripChars ∧ 10 ≤ s.length := by
  simp only [identify_strategy_components, List.mem_cons, List.not_mem_nil,
    or_false] at hb
  rcases hb with h | h | h | h | h | h | h
  all_goals subst h
  all_goals first
    | exact selectBucket_ok _ _
    | exact ⟨by simp, by simp⟩

/-- Claim C9 witness: the invariants instantiated on the entry-conditions bucket
of a concrete transcript. -/
theorem strategy_buckets_ok_witness :
    ((identify_strategy_components
        "Buy when the rsi is low. Sell at the top. Always use a stop loss.".data).entry_conditions).length
        ≤ 5 ∧
      ∀ s ∈ (identify_strategy_components
          "Buy when the rsi is low. Sell at the top. Always use a stop loss.".data).entry_conditions,
        s ∈ (splitSentences
            "Buy when the rsi is low. Sell at the top. Always use a stop loss.".data).map stripChars
          ∧ 10 ≤ s.length :=
  strategy_buckets_ok "Buy when the rsi is low. Sell at the top. Always use a stop loss." _
    (by simp)

/- ======================================================================
   C8: analyze returns a failure object, never raises
   ====================================================================== -/

/-- Claim C8: for every input URL and every outcome of the external oracles, the
`analyze` pipeline is a total function into result records (no exception
reaches the caller): a failed run carries `success = false` together with
a human-readable error message, an invalid URL yields the dedicated
failure record, and a successful run carries no error. -/
theorem analyze_total_failure_object (url : String) (meta : Metadata)
    (useWhisper : Bool) (tracks : List Track) (whisperRes : Option String × String)
    (cache : Option CacheEntry) :
    ((analyze url meta useWhisper tracks whisperRes cache).success = false →
      ∃ msg, (analyze url meta useWhisper tracks whisperRes cache).error = some msg) ∧
    (extract_video_id url = none →
      analyze url meta useWhisper tracks whisperRes cache
        = ⟨false, some "Invalid YouTube URL", none, none⟩) ∧
    ((analyze url meta useWhisper tracks whisperRes cache).success = true →
      (analyze url meta useWhisper tracks whisperRes cache).error = none) := by
  unfold analyze
  split
  · exact ⟨fun _ => ⟨_, rfl⟩, ⟨fun _ => rfl, fun h => nomatch h⟩⟩
  next vid hx =>
    have hne : ¬ extract_video_id url = none := by rw [hx]; exact fun h => nomatch h
    split
    · exact ⟨fun _ => ⟨_, rfl⟩, ⟨fun h => absurd h hne, fun h => nomatch h⟩⟩
    · split
      · refine ⟨fun h => ?_, fun h => absurd h hne, fun _ => rfl⟩
        exact nomatch h
      · exact ⟨fun _ => ⟨_, rfl⟩, ⟨fun h => absurd h hne, fun h => nomatch h⟩⟩

/- ======================================================================
   C4: transcript cache behaviour (corrected)
   ====================================================================== -/

/-- Claim C4 counterexample: when the first call obtains no transcript (no
caption track, failed speech-to-text download), nothing is cached, and a
second call with the same identifier invokes the network acquisition path
again (2 network calls, not the 0 the claim asserts). -/
theorem second_call_hits_network_after_failure :
    ¬ ((get_transcript false [] (none, "download_failed")
        ((get_transcript false [] (none, "download_failed") none).cache)).ncalls = 0) ∧
      (get_transcript false [] (none, "download_failed")
        ((get_transcript false [] (none, "download_failed") none).cache)).ncalls = 2 := by
  decide

/-- Claim C4 amended: provided the first call yields a (truthy) transcript, it
writes a cache entry, and a second call with the same identifier is served
entirely from that cache entry: no acquisition method is considered, zero
network calls are made, and the cached text is returned with a
`_cached`-tagged source. -/
theorem second_call_served_from_cache (useWhisper : Bool) (tracks : List Track)
    (whisperRes : Option String × String)
    (h : truthyOpt (get_transcript useWhisper tracks whisperRes none).result.1 = true) :
    ∃ c, (get_transcript useWhisper tracks whisperRes none).cache = some c ∧
      get_transcript useWhisper tracks whisperRes
          ((get_transcript useWhisper tracks whisperRes none).cache)
        = ⟨(some c.text, c.source ++ "_cached"), some c, [], 0⟩ := by
  revert h
  simp only [get_transcript]
  split
  · split
    · intro _
      exact ⟨_, rfl, rfl⟩
    next ht => intro h; exact absurd h ht
  · split
    · intro _
      exact ⟨_, rfl, rfl⟩
    next ht =>
      split
      · intro _
        exact ⟨_, rfl, rfl⟩
      next hw => intro h; exact absurd h hw

/-- Claim C4 witness: a concrete run in which the first call fetches manual
English captions and the second call is served from the cache. -/
theorem second_call_served_from_cache_witness :
    ∃ c, (get_transcript false [⟨"en", false, "hello world"⟩] (none, "nf") none).cache = some c ∧
      get_transcript false [⟨"en", false, "hello world"⟩] (none, "nf")
          ((get_transcript false [⟨"en", false, "hello world"⟩] (none, "nf") none).cache)
        = ⟨(some c.text, c.source ++ "_cached"), some c, [], 0⟩ :=
  second_call_served_from_cache false [⟨"en", false, "hello world"⟩] (none, "nf") (by decide)

/- ======================================================================
   C5: transcript-acquisition fallback order (corrected)
   ====================================================================== -/

/-- The caption-selection trace is one of the three priority prefixes. -/
theorem ytTrace_cases (tracks : List Track) :
    (ytCaptions tracks).2 = [.manual] ∨ (ytCaptions tracks).2 = [.manual, .auto] ∨
      (ytCaptions tracks).2 = [.manual, .auto, .anyEnglish] := by
  rcases hm : tracks.find? (fun t => isEnglishCode t.lang && !t.generated) with _ | t <;>
    rcases ha : tracks.find? (fun t => isEnglishCode t.lang && t.generated) with _ | u <;>
    rcases hf : findTranscriptSpec tracks with _ | v <;>
    simp [ytCaptions, hm, ha, hf]

/-- Claim C5 counterexample: with a manual English track whose cleaned transcript
is empty and an auto-generated English track whose transcript is nonempty,
the code falls from the (failed) manual captions directly to speech-to-text
— the source is "whisper" and the auto method is never tried — although the
claimed chain stops at the first method that yields a transcript, which
here is the auto-generated captions. -/
theorem fallback_skips_auto_captions :
    (get_transcript false
        [⟨"en", false, ""⟩, ⟨"en", true, "buy when the rsi is low"⟩]
        (some "whisper transcript", "whisper") none).result.2 = "whisper" ∧
      AcqMethod.auto ∉ (get_transcript false
        [⟨"en", false, ""⟩, ⟨"en", true, "buy when the rsi is low"⟩]
        (some "whisper transcript", "whisper") none).trace ∧
      (∃ t ∈ [Track.mk "en" false "", Track.mk "en" true "buy when the rsi is low"],
        (isEnglishCode t.lang && t.generated) = true ∧ ¬ (cleanTranscript t.text = "")) := by
  decide

/-- Claim C5 amended: acquisition (without `--whisper`) selects a caption track
by fixed priority — the first manual English track, else the first
auto-generated English track, else any English variant — and falls back to
speech-to-text exactly when the selected captions yield no (nonempty)
transcript, without trying the remaining caption variants; the methods
considered always form a subsequence of the canonical order
manual → auto → any-English → speech-to-text, so no method is retried. -/
theorem transcript_chain_priority (tracks : List Track) (w : Option String × String) :
    List.Sublist (get_transcript false tracks w none).trace
        [.manual, .auto, .anyEnglish, .whisperSTT] ∧
      (AcqMethod.whisperSTT ∈ (get_transcript false tracks w none).trace ↔
        truthyOpt (ytCaptions tracks).1.1 = false) ∧
      (truthyOpt (ytCaptions tracks).1.1 = true →
        (get_transcript false tracks w none).result = (ytCaptions tracks).1) ∧
      ((∃ t ∈ tracks, (isEnglishCode t.lang && !t.generated) = true) →
        (ytCaptions tracks).1.2 = "manual_captions" ∧
          (ytCaptions tracks).2 = [.manual]) ∧
      ((∀ t ∈ tracks, (isEnglishCode t.lang && !t.generated) = false) →
        (∃ t ∈ tracks, (isEnglishCode t.lang && t.generated) = true) →
        (ytCaptions tracks).1.2 = "auto_captions" ∧
          (ytCaptions tracks).2 = [.manual, .auto]) ∧
      ((∀ t ∈ tracks, isEnglishCode t.lang = false) →
        (ytCaptions tracks).1 = (none, "no_captions")) := by
  refine ⟨?_, ?_, ?_, ?_, ?_, ?_⟩
  · by_cases ht : truthyOpt (ytCaptions tracks).1.1 = true
    · simp only [get_transcript, Bool.false_eq_true, if_false, if_pos ht]
      rcases ytTrace_cases tracks with h | h | h <;> rw [h] <;> decide
    · simp only [get_transcript, Bool.false_eq_true, if_false, if_neg ht]
      have key : List.Sublist ((ytCaptions tracks).2 ++ [AcqMethod.whisperSTT])
          [.manual, .auto, .anyEnglish, .whisperSTT] := by
        have he : ([AcqMethod.manual, .auto, .anyEnglish, .whisperSTT] : List AcqMethod)
            = [.manual, .auto, .anyEnglish] ++ [.whisperSTT] := rfl
        rw [he]
        refine List.Sublist.append ?_ (List.Sublist.refl _)
        rcases ytTrace_cases tracks with h | h | h <;> rw [h] <;> decide
      split <;> exact key
  · by_cases ht : truthyOpt (ytCaptions tracks).1.1 = true
    · simp only [get_transcript, Bool.false_eq_true, if_false, if_pos ht, ht]
      rcases ytTrace_cases tracks with h | h | h <;> rw [h] <;> simp
    · have ht' : truthyOpt (ytCaptions tracks).1.1 = false := by
        cases hb : truthyOpt (ytCaptions tracks).1.1
        · rfl
        · exact absurd hb ht
      simp only [get_transcript, Bool.false_eq_true, if_false, if_neg ht, ht']
      split <;> simp
  · intro ht
    simp only [get_transcript, Bool.false_eq_true, if_false, if_pos ht]
  · rintro ⟨t, htmem, hp⟩
    have hex : ∃ x ∈ tracks, (fun u => isEnglishCode u.lang && !u.generated) x = true :=
      ⟨t, htmem, hp⟩
    obtain ⟨u, hu⟩ := Option.isSome_iff_exists.mp (List.find?_isSome.mpr hex)
    simp [ytCaptions, hu]
  · intro hall
    rintro ⟨t, htmem, hp⟩
    have hmn : tracks.find? (fun u => isEnglishCode u.lang && !u.generated) = none :=
      List.find?_eq_none.mpr fun x hx => by simp [hall x hx]
    have hex : ∃ x ∈ tracks, (fun u => isEnglishCode u.lang && u.generated) x = true :=
      ⟨t, htmem, hp⟩
    obtain ⟨u, hu⟩ := Option.isSome_iff_exists.mp (List.find?_isSome.mpr hex)
    simp [ytCaptions, hmn, hu]
  · intro hall
    have hmn : tracks.find? (fun u => isEnglishCode u.lang && !u.generated) = none :=
      List.find?_eq_none.mpr fun x hx => by simp [hall x hx]
    have han : tracks.find? (fun u => isEnglishCode u.lang && u.generated) = none :=
      List.find?_eq_none.mpr fun x hx => by simp [hall x hx]
    have hfn : findTranscriptSpec tracks = none :=
      List.find?_eq_none.mpr fun x hx => by simp [hall x hx]
    simp [ytCaptions, hmn, han, hfn]

/- ======================================================================
   C2: keyword counting, ranking, dedup and truncation
   ====================================================================== -/

/-- A pattern with at least one non-overlapping occurrence is contained in
the text. -/
theorem containsSub_of_countOccs (p : List Char) :
    ∀ s : List Char, 1 ≤ countOccs p s → containsSub p s = true := by
  intro s
  induction s with
  | nil => intro h; exact absurd h (by simp [countOccs, countOccsAux])
  | cons c t ih =>
    intro h
    by_cases hp : isPre p (c :: t) = true
    · simp [containsSub, hp]
    · have he : countOccs p (c :: t) = countOccs p t := by
        simp [countOccs, countOccsAux, hp]
      rw [he] at h
      simp [containsSub, ih h]

/-- A contained keyword is recorded with its occurrence count. -/
theorem mem_kwFound (kws : List String) (tl : List Char) (kw : String)
    (hmem : kw ∈ kws) (hc : containsSub kw.data tl = true) :
    (kw.data, countOccs kw.data tl) ∈ kwFound kws tl :=
  List.mem_filterMap.mpr ⟨kw, hmem, by simp [hc]⟩

/-- Every recorded pair carries the occurrence count of its term. -/
theorem kwFound_snd (kws : List String) (tl : List Char) (x : List Char × Nat)
    (hx : x ∈ kwFound kws tl) : x.2 = countOccs x.1 tl := by
  obtain ⟨a, _, ha⟩ := List.mem_filterMap.mp hx
  by_cases hc : containsSub a.data tl = true
  · simp only [hc, if_true] at ha
    cases ha
    rfl
  · simp [hc] at ha

/-- Membership in an insertion. -/
theorem mem_insDesc (p x : List Char × Nat) :
    ∀ l : List (List Char × Nat), x ∈ insDesc p l ↔ x = p ∨ x ∈ l := by
  intro l
  induction l with
  | nil => simp [insDesc]
  | cons q t ih =>
    by_cases h : q.2 ≤ p.2
    · simp [insDesc, h]
    · simp only [insDesc, h, if_false, List.mem_cons, ih]
      tauto

/-- Insertion preserves the descending-count invariant. -/
theorem insDesc_pairwise (p : List Char × Nat) :
    ∀ l : List (List Char × Nat), l.Pairwise (fun a b => b.2 ≤ a.2) →
      (insDesc p l).Pairwise (fun a b => b.2 ≤ a.2) := by
  intro l
  induction l with
  | nil => intro _; simp [insDesc]
  | cons q t ih =>
    intro h
    rw [List.pairwise_cons] at h
    by_cases hq : q.2 ≤ p.2
    · simp only [insDesc, hq, if_true]
      refine List.Pairwise.cons ?_ (List.Pairwise.cons h.1 h.2)
      intro x hx
      rcases List.mem_cons.mp hx with hx | hx
      · exact hx ▸ hq
      · exact le_trans (h.1 x hx) hq
    · simp only [insDesc, hq, if_false]
      refine List.Pairwise.cons ?_ (ih h.2)
      intro x hx
      rcases (mem_insDesc p x t).mp hx with hx | hx
      · exact hx ▸ le_of_lt (Nat.lt_of_not_le hq)
      · exact h.1 x hx

/-- The sort is sorted by descending count. -/
theorem sortDesc_pairwise :
    ∀ l : List (List Char × Nat), (sortDesc l).Pairwise (fun a b => b.2 ≤ a.2) := by
  intro l
  induction l with
  | nil => simp [sortDesc]
  | cons p t ih => exact insDesc_pairwise p _ ih

/-- The sort preserves the elements. -/
theorem mem_sortDesc (x : List Char × Nat) :
    ∀ l : List (List Char × Nat), x ∈ sortDesc l ↔ x ∈ l := by
  intro l
  induction l with
  | nil => simp [sortDesc]
  | cons p t ih =>
    simp [sortDesc, mem_insDesc, List.mem_cons, ih]

/-- The dedup pass yields a subsequence of the terms. -/
theorem dedupTerms_sublist :
    ∀ (l : List (List Char × Nat)) (seen : List (List Char)),
      List.Sublist (dedupTerms seen l) (l.map Prod.fst) := by
  intro l
  induction l with
  | nil => intro seen; simp [dedupTerms]
  | cons p t ih =>
    intro seen
    by_cases h : p.1 ∈ seen
    · simp only [dedupTerms, h, if_true]
      exact (ih seen).cons p.1
    · simp only [dedupTerms, h, if_false, List.map_cons]
      exact (ih (p.1 :: seen)).cons₂ p.1

/-- Nothing already seen is emitted by the dedup pass. -/
theorem dedupTerms_not_mem_seen :
    ∀ (l : List (List Char × Nat)) (seen : List (List Char)) (x : List Char),
      x ∈ dedupTerms seen l → x ∉ seen := by
  intro l
  induction l with
  | nil => intro seen x hx; simp [dedupTerms] at hx
  | cons p t ih =>
    intro seen x hx
    by_cases h : p.1 ∈ seen
    · simp only [dedupTerms, h, if_true] at hx
      exact ih seen x hx
    · simp only [dedupTerms, h, if_false, List.mem_cons] at hx
      rcases hx with hx | hx
      · exact hx ▸ h
      · intro hs
        exact ih (p.1 :: seen) x hx (List.mem_cons_of_mem _ hs)

/-- The dedup pass emits each term at most once. -/
theorem dedupTerms_nodup :
    ∀ (l : List (List Char × Nat)) (seen : List (List Char)),
      (dedupTerms seen l).Nodup := by
  intro l
  induction l with
  | nil => intro seen; simp [dedupTerms]
  | cons p t ih =>
    intro seen
    by_cases h : p.1 ∈ seen
    · simp only [dedupTerms, h, if_true]
      exact ih seen
    · simp only [dedupTerms, h, if_false]
      refine List.Pairwise.cons ?_ (ih (p.1 :: seen))
      intro x hx
      intro he
      exact dedupTerms_not_mem_seen t (p.1 :: seen) x hx (he ▸ List.mem_cons_self _ _)

/-- The two `BEq (List Char)` instances in scope count identically. -/
theorem count_beq_eq (a : List Char) (l : List (List Char)) :
    @List.count (List Char) List.instBEq a l
      = @List.count (List Char) instBEqOfDecidableEq a l := by
  induction l with
  | nil => rfl
  | cons b t ih =>
    by_cases h : b = a
    · simp [List.count_cons, h, ih]
    · simp [List.count_cons, h, ih]

/-- `extract_key_concepts` projects to `categoryResult` per category. -/
theorem conceptList_extract (text : String) (c : Category) :
    conceptList (extract_key_concepts text) c
      = categoryResult (TRADING_KEYWORDS c) (lowerData text) := by
  cases c <;> rfl

/-- Claim C2: a keyword of a fixed category occurring `N ≥ 1` times in the
lowercased transcript is recorded by `extract_key_concepts` with count `N`;
the keyword appears at most once in the result list of its category, and that
list is ranked by descending occurrence count with at most 10 entries. -/
theorem concept_extraction_counts (text : String) (c : Category) (kw : String) (N : Nat)
    (hkw : kw ∈ TRADING_KEYWORDS c)
    (hcount : countOccs kw.data (lowerData text) = N) (hN : 1 ≤ N) :
    (kw.data, N) ∈ kwFound (TRADING_KEYWORDS c) (lowerData text) ∧
      (conceptList (extract_key_concepts text) c).count kw.data ≤ 1 ∧
      (conceptList (extract_key_concepts text) c).Pairwise
        (fun a b => countOccs b (lowerData text) ≤ countOccs a (lowerData text)) ∧
      (conceptList (extract_key_concepts text) c).length ≤ 10 := by
  rw [conceptList_extract]
  refine ⟨?_, ?_, ?_, ?_⟩
  · have hc : containsSub kw.data (lowerData text) = true :=
      containsSub_of_countOccs kw.data _ (hcount ▸ hN)
    exact hcount ▸ mem_kwFound (TRADING_KEYWORDS c) (lowerData text) kw hkw hc
  · have hnd : (categoryResult (TRADING_KEYWORDS c) (lowerData text)).Nodup :=
      (dedupTerms_nodup _ []).sublist (List.take_sublist _ _)
    rw [count_beq_eq]
    exact List.nodup_iff_count_le_one.mp hnd kw.data
  · have hpw : (sortDesc (kwFound (TRADING_KEYWORDS c) (lowerData text))).Pairwise
        (fun a b => countOccs b.1 (lowerData text) ≤ countOccs a.1 (lowerData text)) := by
      refine (sortDesc_pairwise _).imp_of_mem ?_
      intro a b ha hb hle
      rw [← kwFound_snd _ _ a ((mem_sortDesc a _).mp ha),
        ← kwFound_snd _ _ b ((mem_sortDesc b _).mp hb)]
      exact hle
    have hmap : ((sortDesc (kwFound (TRADING_KEYWORDS c) (lowerData text))).map
          Prod.fst).Pairwise
        (fun a b => countOccs b (lowerData text) ≤ countOccs a (lowerData text)) :=
      List.pairwise_map.mpr hpw
    exact (hmap.sublist (dedupTerms_sublist _ [])).sublist (List.take_sublist _ _)
  · exact List.length_take_le _ _

/-- Claim C2 witness: "rsi" occurs twice in the lowercased transcript
"RSI and rsi", is recorded with count 2, appears once in the ranked
indicators list, which is sorted and within the top-10 bound. -/
theorem concept_extraction_counts_witness :
    ("rsi".data, 2) ∈ kwFound (TRADING_KEYWORDS .indicators) (lowerData "RSI and rsi") ∧
      (conceptList (extract_key_concepts "RSI and rsi") .indicators).count "rsi".data ≤ 1 ∧
      (conceptList (extract_key_concepts "RSI and rsi") .indicators).Pairwise
        (fun a b => countOccs b (lowerData "RSI and rsi")
          ≤ countOccs a (lowerData "RSI and rsi")) ∧
      (conceptList (extract_key_concepts "RSI and rsi") .indicators).length ≤ 10 :=
  concept_extraction_counts "RSI and rsi" .indicators "rsi" 2 (by decide) (by decide)
    (by decide)

/- ======================================================================
   C3: URL-shape characterization of extract_video_id
   ====================================================================== -/

/-- A list is a Boolean prefix of itself followed by anything. -/
theorem isPre_append (p r : List Char) : isPre p (p ++ r) = true := by
  induction p with
  | nil => rfl
  | cons a as ih => simp [isPre, ih]

/-- A Boolean prefix is an actual prefix. -/
theorem eq_append_of_isPre (p : List Char) :
    ∀ s : List Char, isPre p s = true → s = p ++ s.drop p.length := by
  induction p with
  | nil => intro s _; simp
  | cons a as ih =>
    intro s h
    cases s with
    | nil => simp [isPre] at h
    | cons b t =>
      simp only [isPre, Bool.and_eq_true, decide_eq_true_eq] at h
      have ht := ih t h.2
      simp only [List.cons_append, List.length_cons, List.drop_succ_cons]
      rw [h.1, ← ht]

/-- The first character surviving `dropWhile` falsifies the predicate. -/
theorem head_dropWhile_not (q : Char → Bool) :
    ∀ (l : List Char) (d : Char), (l.dropWhile q).head? = some d → q d = false := by
  intro l
  induction l with
  | nil => intro d h; simp at h
  | cons c t ih =>
    intro d h
    by_cases hc : q c = true
    · rw [List.dropWhile_cons_of_pos hc] at h
      exact ih d h
    · rw [List.dropWhile_cons_of_neg hc] at h
      simp only [List.head?_cons, Option.some.injEq] at h
      rw [← h]
      exact Bool.eq_false_iff.mpr hc

/-- Shifting a qualifying occurrence under a common head character. -/
theorem qual_cons_shift (p : List Char) (c : Char) (t a : List Char) :
    QualAt p t a → QualAt p (c :: t) (c :: a) := by
  rintro ⟨v, b, heq, hv, hid⟩
  refine ⟨v, b, ?_, hv, hid⟩
  rw [heq]
  simp [List.cons_append, List.append_assoc]

/-- A qualifying occurrence at a nonempty offset shifts to the tail. -/
theorem qual_cons_elim (p : List Char) (c : Char) (t : List Char) (a1 : Char)
    (a2 : List Char) (h : QualAt p (c :: t) (a1 :: a2)) : QualAt p t a2 := by
  obtain ⟨v, b, heq, hv, hid⟩ := h
  simp only [List.cons_append, List.append_assoc, List.cons.injEq] at heq
  refine ⟨v, b, ?_, hv, hid⟩
  rw [heq.2]
  simp [List.append_assoc]

/-- A qualifying occurrence at offset 0 forces the prefix to match and the
following identifier run to be nonempty. -/
theorem qual_nil_run (p s : List Char) (h : QualAt p s []) :
    isPre p s = true ∧ (s.drop p.length).takeWhile isIdChar ≠ [] := by
  obtain ⟨v, b, heq, hv, hid⟩ := h
  have heq' : s = p ++ (v ++ b) := by simpa [List.append_assoc] using heq
  refine ⟨by rw [heq']; exact isPre_append p _, ?_⟩
  have hd : s.drop p.length = v ++ b := by
    rw [heq']
    exact List.drop_left p (v ++ b)
  cases v with
  | nil => exact absurd rfl hv
  | cons vh vt =>
    rw [hd, List.cons_append, List.takeWhile_cons_of_pos (hid vh (by simp))]
    simp

/-- Conversely, a matching prefix with a nonempty identifier run gives a
qualifying occurrence at offset 0. -/
theorem qual_nil_of_run (p s : List Char) (hp : isPre p s = true)
    (hrun : (s.drop p.length).takeWhile isIdChar ≠ []) : QualAt p s [] := by
  refine ⟨(s.drop p.length).takeWhile isIdChar, (s.drop p.length).dropWhile isIdChar,
    ?_, hrun, fun x hx => List.mem_takeWhile_imp hx⟩
  have h1 := eq_append_of_isPre p s hp
  simp only [List.nil_append, List.append_assoc, List.takeWhile_append_dropWhile]
  exact h1

/-- `re.search` of one pattern fails exactly when the pattern has no
qualifying occurrence anywhere in the string. -/
theorem searchCapture_none_iff (p : List Char) :
    ∀ s, searchCapture p s = none ↔ ∀ a, ¬ QualAt p s a := by
  intro s
  induction s with
  | nil =>
    simp only [searchCapture, true_iff]
    rintro a ⟨v, b, heq, hv, _⟩
    have hlen := congrArg List.length heq
    simp only [List.length_nil, List.length_append] at hlen
    exact hv (List.length_eq_zero.mp (by omega))
  | cons c t ih =>
    by_cases hp : isPre p (c :: t) = true
    · by_cases hrun : ((c :: t).drop p.length).takeWhile isIdChar = []
      · have hs : searchCapture p (c :: t) = searchCapture p t := by
          simp [searchCapture, hp, List.isEmpty_iff, hrun]
        rw [hs, ih]
        constructor
        · intro h a hq
          cases a with
          | nil => exact (qual_nil_run p (c :: t) hq).2 hrun
          | cons a1 a2 => exact h a2 (qual_cons_elim p c t a1 a2 hq)
        · intro h a hq
          exact h (c :: a) (qual_cons_shift p c t a hq)
      · have hs : searchCapture p (c :: t)
            = some (((c :: t).drop p.length).takeWhile isIdChar) := by
          simp [searchCapture, hp, List.isEmpty_iff, hrun]
        rw [hs]
        constructor
        · intro h; cases h
        · intro h
          exact absurd (qual_nil_of_run p (c :: t) hp hrun) (h [])
    · have hs : searchCapture p (c :: t) = searchCapture p t := by
        simp [searchCapture, hp]
      rw [hs, ih]
      constructor
      · intro h a hq
        cases a with
        | nil => exact hp (qual_nil_run p (c :: t) hq).1
        | cons a1 a2 => exact h a2 (qual_cons_elim p c t a1 a2 hq)
      · intro h a hq
        exact h (c :: a) (qual_cons_shift p c t a hq)

/-- A successful `re.search` of one pattern captures the maximal
identifier run after the leftmost qualifying occurrence of the literal
prefix. -/
theorem searchCapture_some_spec (p : List Char) :
    ∀ s v, searchCapture p s = some v →
      ∃ a b, s = a ++ p ++ v ++ b ∧ v ≠ [] ∧ (∀ ch ∈ v, isIdChar ch = true) ∧
        (∀ d, b.head? = some d → isIdChar d = false) ∧
        ∀ a2, a2.length < a.length → ¬ QualAt p s a2 := by
  intro s
  induction s with
  | nil => intro v h; simp [searchCapture] at h
  | cons c t ih =>
    intro v h
    by_cases hp : isPre p (c :: t) = true
    · by_cases hrun : ((c :: t).drop p.length).takeWhile isIdChar = []
      · have hs : searchCapture p (c :: t) = searchCapture p t := by
          simp [searchCapture, hp, List.isEmpty_iff, hrun]
        rw [hs] at h
        obtain ⟨a, b, heq, hv, hid, hb, hleft⟩ := ih v h
        refine ⟨c :: a, b, ?_, hv, hid, hb, ?_⟩
        · rw [List.cons_append, List.cons_append, List.cons_append, heq]
        · intro a2 hlen hq
          cases a2 with
          | nil => exact (qual_nil_run p (c :: t) hq).2 hrun
          | cons a1 a3 =>
            exact hleft a3 (Nat.lt_of_succ_lt_succ (by simpa using hlen))
              (qual_cons_elim p c t a1 a3 hq)
      · have hs : searchCapture p (c :: t)
            = some (((c :: t).drop p.length).takeWhile isIdChar) := by
          simp [searchCapture, hp, List.isEmpty_iff, hrun]
        rw [hs] at h
        cases h
        refine ⟨[], ((c :: t).drop p.length).dropWhile isIdChar, ?_, hrun,
          fun x hx => List.mem_takeWhile_imp hx,
          fun d hd => head_dropWhile_not isIdChar _ d hd, ?_⟩
        · have h1 := eq_append_of_isPre p (c :: t) hp
          simp only [List.nil_append, List.append_assoc, List.takeWhile_append_dropWhile]
          exact h1
        · intro a2 hlen
          simp at hlen
    · have hs : searchCapture p (c :: t) = searchCapture p t := by
        simp [searchCapture, hp]
      rw [hs] at h
      obtain ⟨a, b, heq, hv, hid, hb, hleft⟩ := ih v h
      refine ⟨c :: a, b, ?_, hv, hid, hb, ?_⟩
      · rw [List.cons_append, List.cons_append, List.cons_append, heq]
      · intro a2 hlen hq
        cases a2 with
        | nil => exact hp (qual_nil_run p (c :: t) hq).1
        | cons a1 a3 =>
          exact hleft a3 (Nat.lt_of_succ_lt_succ (by simpa using hlen))
            (qual_cons_elim p c t a1 a3 hq)

/-- Trying the patterns in order fails exactly when every pattern fails. -/
theorem firstCapture_none_iff (s : List Char) :
    ∀ ps : List (List Char),
      firstCapture ps s = none ↔ ∀ p ∈ ps, searchCapture p s = none := by
  intro ps
  induction ps with
  | nil => simp [firstCapture]
  | cons p ps ih =>
    rcases hq : searchCapture p s with _ | w
    · simp only [firstCapture, hq, ih, List.mem_cons]
      constructor
      · rintro h x (hx | hx)
        · exact hx ▸ hq
        · exact h x hx
      · intro h x hx
        exact h x (Or.inr hx)
    · simp only [firstCapture, hq]
      constructor
      · intro h; cases h
      · intro h
        have hn := h p (List.mem_cons_self p ps)
        rw [hn] at hq
        cases hq

/-- A successful run of the pattern list splits it into earlier patterns
that all fail and the first pattern that succeeds. -/
theorem firstCapture_some_spec (s : List Char) :
    ∀ ps v, firstCapture ps s = some v →
      ∃ l1 p l2, ps = l1 ++ p :: l2 ∧ (∀ q ∈ l1, searchCapture q s = none) ∧
        searchCapture p s = some v := by
  intro ps
  induction ps with
  | nil => intro v h; simp [firstCapture] at h
  | cons p ps ih =>
    intro v h
    rcases hq : searchCapture p s with _ | w
    · have hs : firstCapture (p :: ps) s = firstCapture ps s := by
        simp [firstCapture, hq]
      rw [hs] at h
      obtain ⟨l1, q, l2, hps, hnone, hqs⟩ := ih v h
      refine ⟨p :: l1, q, l2, by rw [hps]; rfl, ?_, hqs⟩
      intro x hx
      rcases List.mem_cons.mp hx with hx | hx
      · exact hx ▸ hq
      · exact hnone x hx
    · have hs : firstCapture (p :: ps) s = some w := by
        simp [firstCapture, hq]
      rw [hs] at h
      cases h
      exact ⟨[], p, ps, rfl, by simp, hq⟩

/-- Claim C3: `extract_video_id` returns `None` exactly when none of the five
URL shapes has a qualifying occurrence in the URL; when it returns an
identifier, that identifier is the capture of the first shape (in pattern
order) that matches: a nonempty maximal run of `[\w-]` characters
following the leftmost qualifying occurrence of the literal prefix of that
shape, while every earlier shape matches nowhere in the URL. -/
theorem extract_video_id_spec (url : String) :
    (extract_video_id url = none ↔ ∀ p ∈ shapeList, ∀ a, ¬ QualAt p url.data a) ∧
      (∀ v : String, extract_video_id url = some v →
        ∃ l1 p l2, shapeList = l1 ++ p :: l2 ∧
          (∀ q ∈ l1, ∀ a, ¬ QualAt q url.data a) ∧
          ∃ a b, url.data = a ++ p ++ v.data ++ b ∧ v.data ≠ [] ∧
            (∀ ch ∈ v.data, isIdChar ch = true) ∧
            (∀ d, b.head? = some d → isIdChar d = false) ∧
            ∀ a2, a2.length < a.length → ¬ QualAt p url.data a2) := by
  constructor
  · have hext : extract_video_id url = none ↔ firstCapture shapeList url.data = none := by
      unfold extract_video_id
      rcases firstCapture shapeList url.data with _ | w
      · simp
      · simp
    rw [hext, firstCapture_none_iff]
    constructor
    · intro h p hp
      exact (searchCapture_none_iff p url.data).mp (h p hp)
    · intro h p hp
      exact (searchCapture_none_iff p url.data).mpr (h p hp)
  · intro v h
    have hf : firstCapture shapeList url.data = some v.data := by
      unfold extract_video_id at h
      rcases hw : firstCapture shapeList url.data with _ | w
      · rw [hw] at h; cases h
      · rw [hw] at h
        simp only [Option.some.injEq] at h
        rw [← h]
    obtain ⟨l1, p, l2, hps, hnone, hp⟩ := firstCapture_some_spec url.data shapeList v.data hf
    exact ⟨l1, p, l2, hps,
      fun q hq => (searchCapture_none_iff q url.data).mp (hnone q hq),
      searchCapture_some_spec p url.data v.data hp⟩
